/-
Verification of the similarity scoring engine of SimilarJiraTicketFinder.

Shallow embedding of `src/index.js` (the semantic + TF-IDF similarity
resolver) and `src/config.js`.  Scores that the program combines with
rational arithmetic (merging, boosting, rounding, ranking) are modelled
over `ℚ`; the TF-IDF layer, which uses `Math.log` and `Math.sqrt`, is
modelled over `ℝ`.
-/
import Mathlib

namespace SimilarTickets

/-! ## Definitions -/

/-! ### Configuration (src/config.js, second `module.exports` wins) -/

def SEMANTIC_WEIGHT : ℚ := 8/10
def TFIDF_WEIGHT : ℚ := 2/10
def SEMANTIC_THRESHOLD : ℚ := 6/10
def SUMMARY_WEIGHT : ℚ := 8/10
def DESCRIPTION_WEIGHT : ℚ := 2/10
def MAX_BOOST : ℚ := 1/10
def BOOST_ISSUETYPE_MATCH : ℚ := 5/100
def BOOST_LABELS_OVERLAP : ℚ := 2/100
def BOOST_COMPONENTS_OVERLAP : ℚ := 2/100

/-! ### Data model -/

/-- A scored candidate: one element of the `{key, score}` lists that the
pipeline functions pass around. -/
structure Scored where
  key : String
  score : ℚ
deriving DecidableEq

/-- An issue as built by the resolver: `{key, summary, description}`,
where a missing description has already been replaced by `''`. -/
structure Issue where
  key : String
  summary : String
  description : String
deriving DecidableEq

/-- JS lookup `list.find(e => e.key === k)?.score || 0`: the score of the
first entry with the given key, `0` when there is none (or when the stored
score is `0`, which coincides). -/
def findScore (l : List Scored) (k : String) : ℚ :=
  match l.find? (fun e => e.key == k) with
  | some e => e.score
  | none => 0

/-! ### Score merger (`mergeSimilarityScores`, src/index.js lines 154-162) -/

/-- `mergeSimilarityScores(semanticScored, tfidfScored)`: map over the
semantic-scored list; take the semantic score alone when it reaches the
threshold (inclusive `>=`), otherwise blend it with the lexical score
looked up by key (defaulting to `0`). -/
def mergeSimilarityScores (semanticScored tfidfScored : List Scored) : List Scored :=
  semanticScored.map (fun e =>
    let tfidfScore := findScore tfidfScored e.key
    let score := if SEMANTIC_THRESHOLD ≤ e.score then e.score
      else e.score * SEMANTIC_WEIGHT + tfidfScore * TFIDF_WEIGHT
    { key := e.key, score := score })

/-! ### Metadata booster (`applyBoostingLogic`, src/index.js lines 163-200) -/

/-- A Jira component object; the booster compares components by `name`. -/
structure Component where
  name : String
deriving DecidableEq

/-- Metadata of a candidate issue, as assembled by the resolver:
`{key, issuetype, labels, components}`.  The booster only reads
`issuetype?.id`, modelled here as an optional id (`none` when the
`issuetype` field is missing). -/
structure IssueMetadata where
  key : String
  issuetypeId : Option String
  labels : List String
  components : List Component
deriving DecidableEq

/-- Metadata of the current (query) issue. -/
structure CurrentMetadata where
  issuetypeId : Option String
  labels : List String
  components : List Component
deriving DecidableEq

/-- `applyBoostingLogic(currentMetadata, othersMetadata, baseScored)`:
per scored entry, look up the candidate's metadata by key (entry returned
unchanged when missing), accumulate the issue-type / label-overlap /
component-overlap boosts, cap at `MAX_BOOST`, and add to the score.
JS `Set` iteration over labels and component names is modelled with
`List.dedup` (one visit per distinct element). -/
def applyBoostingLogic (currentMetadata : CurrentMetadata)
    (othersMetadata : List IssueMetadata) (baseScored : List Scored) : List Scored :=
  baseScored.map (fun e =>
    match othersMetadata.find? (fun i => i.key == e.key) with
    | none => e
    | some issueMeta =>
      let boostA : ℚ :=
        if issueMeta.issuetypeId = currentMetadata.issuetypeId then BOOST_ISSUETYPE_MATCH else 0
      let currentLabels := currentMetadata.labels.dedup
      let boostB := boostA
        + ((currentLabels.filter (fun l => issueMeta.labels.contains l)).length : ℚ)
          * BOOST_LABELS_OVERLAP
      let currentComponents := (currentMetadata.components.map Component.name).dedup
      let boostC := boostB
        + ((currentComponents.filter
              (fun c => (issueMeta.components.map Component.name).contains c)).length : ℚ)
          * BOOST_COMPONENTS_OVERLAP
      let boost := min boostC MAX_BOOST
      { key := e.key, score := e.score + boost })

/-- Number of distinct strings occurring in both lists (the spec's
"once per distinct overlapping label/component"). -/
def distinctOverlap (xs ys : List String) : ℕ := (xs.toFinset ∩ ys.toFinset).card

/-- The uncapped accumulated boost described by the spec. -/
def accumulatedBoost (cm : CurrentMetadata) (m : IssueMetadata) : ℚ :=
  (if m.issuetypeId = cm.issuetypeId then BOOST_ISSUETYPE_MATCH else 0)
  + (distinctOverlap cm.labels m.labels : ℚ) * BOOST_LABELS_OVERLAP
  + (distinctOverlap (cm.components.map Component.name) (m.components.map Component.name) : ℚ)
    * BOOST_COMPONENTS_OVERLAP

/-- Concrete query metadata used by witnesses: issue type `"1"`, labels
`["a", "b", "a"]` (label `"a"` repeated), one component `"c"`. -/
def witnessCurrentMeta : CurrentMetadata :=
  { issuetypeId := some "1", labels := ["a", "b", "a"], components := [{ name := "c" }] }

/-- Concrete candidate metadata used by witnesses: same issue type, labels
`["b", "a"]`, same component. -/
def witnessIssueMeta : IssueMetadata :=
  { key := "K", issuetypeId := some "1", labels := ["b", "a"], components := [{ name := "c" }] }

/-! ### Semantic similarity adapter (src/index.js lines 110-152) -/

/-- Outcome of one call to the remote SBERT similarity service: either a
successful JSON array of `{key, score}` entries, a non-success HTTP
response, or a thrown exception. -/
inductive ProviderOutcome where
  | success (results : List Scored)
  | errorResponse
  | exception
deriving DecidableEq

/-- One step of
`result.reduce((map, {key, score}) => { map[key] = score; return map }, {})`:
JS object assignment overwrites an existing key and otherwise appends. -/
def mapInsert (m : List Scored) (e : Scored) : List Scored :=
  if m.any (fun x => x.key == e.key) then
    m.map (fun x => if x.key == e.key then { key := x.key, score := e.score } else x)
  else m ++ [e]

/-- `fetchSemanticSimilarity`: on a successful response, fold the returned
entries into a key-to-score mapping; on a non-success response or an
exception, log and return the empty mapping. -/
def fetchSemanticSimilarity : ProviderOutcome → List Scored
  | .success results => results.foldl mapInsert []
  | .errorResponse => []
  | .exception => []

/-- `calculateSemanticSimilarity(current, others)`: fetch the per-field
semantic score mappings (one provider call per field, each represented
here by the call's outcome) and aggregate per candidate with
`summaryScore * SUMMARY_WEIGHT + descScore * DESCRIPTION_WEIGHT`, missing
keys defaulting to 0 (`scores[key] || 0`). -/
def calculateSemanticSimilarity (summaryOutcome descriptionOutcome : ProviderOutcome)
    (others : List Issue) : List Scored :=
  let summaryScores := fetchSemanticSimilarity summaryOutcome
  let descriptionScores := fetchSemanticSimilarity descriptionOutcome
  others.map (fun issue =>
    let summaryScore := findScore summaryScores issue.key
    let descScore := findScore descriptionScores issue.key
    { key := issue.key,
      score := summaryScore * SUMMARY_WEIGHT + descScore * DESCRIPTION_WEIGHT })

/-! ### Final capping, rounding and ranking (src/index.js lines 261-278) -/

/-- JS `Math.round(x * 100) / 100`: round to two decimals; `Math.round`
sends halves toward positive infinity, i.e. `Math.round(x) = ⌊x + 1/2⌋`. -/
def round2 (q : ℚ) : ℚ := (Int.floor (q * 100 + 1/2) : ℤ) / 100

/-- The resolver's step 4 (`similarityScored`): per boosted entry, emit
`score: Math.min(Math.round(score * 100) / 100, 1)`.  Only the key/score
part is modelled; the attached summary/description strings do not affect
scores. -/
def finalizeScores (boosted : List Scored) : List Scored :=
  boosted.map (fun e => { key := e.key, score := min (round2 e.score) 1 })

/-- Comparator model for `sort((a, b) => b.score - a.score)`: a JS stable
sort keeps `a` before `b` exactly when the comparator value is `≤ 0`,
i.e. when `b.score ≤ a.score`. -/
def scoreDescLe (a b : Scored) : Bool := decide (b.score ≤ a.score)

/-- The resolver's step 5: sort by score descending
(`Array.prototype.sort` is stable per the ECMAScript spec, modelled by
the stable `List.mergeSort`) and truncate with `slice(0, 10)`. -/
def rankTop10 (similarityScored : List Scored) : List Scored :=
  (similarityScored.mergeSort scoreDescLe).take 10

/-! ### Text preprocessing (src/index.js lines 21-44)

The phrase map and the synonym dictionary live in
`normalizationDictionary.js`, which is not part of the sources;
`tokenize` therefore takes them as parameters. -/

def STOP_WORDS : List String :=
  ["the", "is", "in", "at", "of", "a", "and", "to", "it", "for",
   "on", "this", "that", "with", "as", "by", "an"]

/-- A JS word character (the `\w` class): ASCII letter, digit or
underscore. -/
def isWordChar (c : Char) : Bool := c.isAlphanum || c == '_'

/-- `text.toLowerCase()`, modelled characterwise over the string's
character list. -/
def toLowerString (s : String) : String := String.mk (s.toList.map Char.toLower)

mutual

/-- `text.split(/\W+/)` over a character list, inside a field:
`cur` is the (reversed) current field. -/
def splitW : List Char → List Char → List String
  | [], cur => [String.mk cur.reverse]
  | c :: rest, cur =>
    if isWordChar c then splitW rest (c :: cur)
    else String.mk cur.reverse :: splitSep rest

/-- `text.split(/\W+/)` over a character list, inside a separator run
(the field before the run has just been emitted). -/
def splitSep : List Char → List String
  | [] => [""]
  | c :: rest =>
    if isWordChar c then splitW rest [c]
    else splitSep rest

end

/-- `normalizeToken(token) = normalizationDictionary[token] || token`:
a dictionary hit replaces the token unless the replacement is falsy
(the empty string); `nd` is the dictionary lookup.
Modelled from the spec: `normalizationDictionary.js` is missing from the
sources, so the dictionary is a parameter (§4.1: exact-match synonym
lookup, unmatched tokens pass through). -/
def normalizeToken (nd : String → Option String) (token : String) : String :=
  match nd token with
  | some r => if r == "" then token else r
  | none => token

/-- `tokenize(text)`: apply the phrase map (`pm`, a parameter standing for
`applyPhraseMap` whose dictionary is missing from the sources), lowercase,
split on runs of non-word characters, normalize each token, and drop empty
tokens and stopwords. -/
def tokenize (pm : String → String) (nd : String → Option String) (text : String) :
    List String :=
  ((splitW (toLowerString (pm text)).toList []).map (normalizeToken nd)).filter
    (fun t => !(t == "") && !(STOP_WORDS.contains t))

/-! ### TF-IDF engine (src/index.js lines 47-107) -/

/-- `computeDocumentFrequencies(documents)` as a total mapping: the number
of documents containing the token at least once (`new Set(tokens)` counts
each distinct token once per document); absent tokens map to 0
(JS `undefined`, read back through `df[t] || 1`). -/
def computeDocumentFrequencies (documents : List (List String)) : String → ℕ :=
  fun t => (documents.filter (fun tokens => tokens.contains t)).length

/-- `computeTfIdf(tokens, df, totalDocs)`: an association vector with one
entry per distinct token, weighted
`(count/total) * Math.log(totalDocs / (df[t] || 1))`. -/
noncomputable def computeTfIdf (tokens : List String) (df : String → ℕ) (totalDocs : ℕ) :
    List (String × ℝ) :=
  tokens.dedup.map (fun t =>
    (t, ((tokens.count t : ℝ) / (tokens.length : ℝ))
      * Real.log ((totalDocs : ℝ) / ((if df t = 0 then 1 else df t : ℕ) : ℝ))))

/-- `tf[term] || 0`: coordinate of an association vector, 0 when the term
is absent. -/
def vecLookup (v : List (String × ℝ)) (t : String) : ℝ :=
  match v.find? (fun p => p.1 == t) with
  | some p => p.2
  | none => 0

/-- The union of the two vectors' term sets
(`new Set([...Object.keys(tf1), ...Object.keys(tf2)])`). -/
def termsUnion (tf1 tf2 : List (String × ℝ)) : List String :=
  (tf1.map Prod.fst ++ tf2.map Prod.fst).dedup

/-- The `dot` accumulator of `cosineSimilarity`. -/
def dotProduct (tf1 tf2 : List (String × ℝ)) : ℝ :=
  ((termsUnion tf1 tf2).map (fun t => vecLookup tf1 t * vecLookup tf2 t)).sum

/-- The `mag1`/`mag2` accumulators of `cosineSimilarity`: sum of squared
coordinates over the given term list. -/
def magSqOver (terms : List String) (v : List (String × ℝ)) : ℝ :=
  (terms.map (fun t => vecLookup v t * vecLookup v t)).sum

/-- `cosineSimilarity(tf1, tf2) = dot / (Math.sqrt(mag1) * Math.sqrt(mag2) || 1)`:
the JS `|| 1` guard replaces a zero magnitude product by 1. -/
noncomputable def cosineSimilarity (tf1 tf2 : List (String × ℝ)) : ℝ :=
  let terms := termsUnion tf1 tf2
  let dot := dotProduct tf1 tf2
  let denom := Real.sqrt (magSqOver terms tf1) * Real.sqrt (magSqOver terms tf2)
  dot / (if denom = 0 then 1 else denom)

/-- An ℝ-scored candidate (output of the TF-IDF engine). -/
structure RScored where
  key : String
  score : ℝ

/-- The summary TF-IDF vector of document `d` within the corpus
`[current, ...others]`: `computeTfIdf(tokenize(d.summary), summaryDf, totalDocs)`,
with `summaryDf` built over all summaries and `totalDocs = all.length`. -/
noncomputable def summaryVec (pm : String → String) (nd : String → Option String)
    (current : Issue) (others : List Issue) (d : Issue) : List (String × ℝ) :=
  computeTfIdf (tokenize pm nd d.summary)
    (computeDocumentFrequencies ((current :: others).map (fun doc => tokenize pm nd doc.summary)))
    (current :: others).length

/-- The description TF-IDF vector of document `d` within the corpus
`[current, ...others]` (independent document-frequency index). -/
noncomputable def descVec (pm : String → String) (nd : String → Option String)
    (current : Issue) (others : List Issue) (d : Issue) : List (String × ℝ) :=
  computeTfIdf (tokenize pm nd d.description)
    (computeDocumentFrequencies
      ((current :: others).map (fun doc => tokenize pm nd doc.description)))
    (current :: others).length

/-- `calculateTFIDFCosineSimilarity(current, others)`: per candidate
(the loop `for i = 1` over `all = [current, ...others]`), the summary and
description cosines against the current issue's vectors, aggregated with
`summaryScore * SUMMARY_WEIGHT + descScore * DESCRIPTION_WEIGHT`. -/
noncomputable def calculateTFIDFCosineSimilarity (pm : String → String)
    (nd : String → Option String) (current : Issue) (others : List Issue) : List RScored :=
  others.map (fun doc =>
    let summaryScore := cosineSimilarity (summaryVec pm nd current others current)
      (summaryVec pm nd current others doc)
    let descScore := cosineSimilarity (descVec pm nd current others current)
      (descVec pm nd current others doc)
    { key := doc.key,
      score := summaryScore * (SUMMARY_WEIGHT : ℝ) + descScore * (DESCRIPTION_WEIGHT : ℝ) })

/-! ## Theorems -/

/-- Claim C1: for every candidate, the merge step returns the semantic
score unchanged when it is `≥ SEMANTIC_THRESHOLD` (the comparison is
inclusive: a score exactly equal to the threshold takes the semantic-only
path), and otherwise returns
`semanticScore * SEMANTIC_WEIGHT + lexicalScore * TFIDF_WEIGHT`. -/
theorem mergeSimilarityScores_threshold_branch
    (semanticScored tfidfScored : List Scored)
    (j : ℕ) (h : j < semanticScored.length)
    (h2 : j < (mergeSimilarityScores semanticScored tfidfScored).length) :
    (SEMANTIC_THRESHOLD ≤ (semanticScored.get ⟨j, h⟩).score →
      ((mergeSimilarityScores semanticScored tfidfScored).get ⟨j, h2⟩).score
        = (semanticScored.get ⟨j, h⟩).score)
    ∧ ((semanticScored.get ⟨j, h⟩).score = SEMANTIC_THRESHOLD →
      ((mergeSimilarityScores semanticScored tfidfScored).get ⟨j, h2⟩).score
        = (semanticScored.get ⟨j, h⟩).score)
    ∧ ((semanticScored.get ⟨j, h⟩).score < SEMANTIC_THRESHOLD →
      ((mergeSimilarityScores semanticScored tfidfScored).get ⟨j, h2⟩).score
        = (semanticScored.get ⟨j, h⟩).score * SEMANTIC_WEIGHT
          + findScore tfidfScored (semanticScored.get ⟨j, h⟩).key * TFIDF_WEIGHT) := by
  simp only [mergeSimilarityScores, List.get_eq_getElem, List.getElem_map]
  refine ⟨fun hge => ?_, fun heq => ?_, fun hlt => ?_⟩
  · simp [if_pos hge]
  · simp [heq, le_refl]
  · simp [if_neg (not_le.mpr hlt)]

/-- Witness for C1 at concrete inputs: a semantic score exactly at the
threshold (`0.6`) passes through unchanged, and a score below it
(`0.5`, with lexical score `0.3`) is blended. -/
theorem mergeSimilarityScores_threshold_branch_witness :
    ((0 : ℕ) < [Scored.mk "A" (6/10)].length)
    ∧ ((mergeSimilarityScores [Scored.mk "A" (6/10)] [Scored.mk "A" (3/10)]).get
        ⟨0, by decide⟩).score = (6/10 : ℚ)
    ∧ ((mergeSimilarityScores [Scored.mk "A" (5/10)] [Scored.mk "A" (3/10)]).get
        ⟨0, by decide⟩).score = (5/10 : ℚ) * SEMANTIC_WEIGHT + (3/10 : ℚ) * TFIDF_WEIGHT := by
  refine ⟨by decide, ?_, ?_⟩
  · exact (mergeSimilarityScores_threshold_branch
      [Scored.mk "A" (6/10)] [Scored.mk "A" (3/10)] 0 (by decide) (by decide)).2.1
      (by norm_num [SEMANTIC_THRESHOLD])
  · have := (mergeSimilarityScores_threshold_branch
      [Scored.mk "A" (5/10)] [Scored.mk "A" (3/10)] 0 (by decide) (by decide)).2.2
      (by norm_num [SEMANTIC_THRESHOLD])
    simpa [findScore, List.find?] using this

/-- Claim C10: `mergeSimilarityScores` maps over the semantic-scored list,
so it returns exactly one entry per semantic entry with the same key in the
same position; a lexical-only candidate produces no output entry, and a
candidate absent from the lexical list is blended using lexical score 0. -/
theorem mergeSimilarityScores_shape
    (semanticScored tfidfScored : List Scored) :
    ((mergeSimilarityScores semanticScored tfidfScored).map Scored.key
        = semanticScored.map Scored.key)
    ∧ (∀ k, k ∉ semanticScored.map Scored.key →
        k ∉ (mergeSimilarityScores semanticScored tfidfScored).map Scored.key)
    ∧ ∀ (j : ℕ) (h : j < semanticScored.length)
        (h2 : j < (mergeSimilarityScores semanticScored tfidfScored).length),
        (∀ e ∈ tfidfScored, e.key ≠ (semanticScored.get ⟨j, h⟩).key) →
        ((mergeSimilarityScores semanticScored tfidfScored).get ⟨j, h2⟩).key
          = (semanticScored.get ⟨j, h⟩).key
        ∧ ((mergeSimilarityScores semanticScored tfidfScored).get ⟨j, h2⟩).score
          = (if SEMANTIC_THRESHOLD ≤ (semanticScored.get ⟨j, h⟩).score
             then (semanticScored.get ⟨j, h⟩).score
             else (semanticScored.get ⟨j, h⟩).score * SEMANTIC_WEIGHT + 0 * TFIDF_WEIGHT) := by
  have hmap : (mergeSimilarityScores semanticScored tfidfScored).map Scored.key
      = semanticScored.map Scored.key := by
    simp [mergeSimilarityScores, List.map_map, Function.comp]
  refine ⟨hmap, fun k hk => by simpa [hmap] using hk, fun j h h2 habs => ?_⟩
  simp only [List.get_eq_getElem] at habs ⊢
  have hfind : tfidfScored.find? (fun e => e.key == semanticScored[j].key) = none := by
    apply List.find?_eq_none.mpr
    intro e he
    simpa using habs e he
  have hscore : findScore tfidfScored semanticScored[j].key = 0 := by
    simp [findScore, hfind]
  constructor
  · simp [mergeSimilarityScores]
  · simp only [mergeSimilarityScores, List.getElem_map, hscore]

/-- Witness for C10 at concrete inputs: a lexical-only candidate `"B"` is
absent from the output, and candidate `"A"` (absent from the lexical list,
semantic score `0.5 < 0.6`) is blended with lexical score 0. -/
theorem mergeSimilarityScores_shape_witness :
    ((mergeSimilarityScores [Scored.mk "A" (5/10)] [Scored.mk "B" (9/10)]).map Scored.key
      = ["A"])
    ∧ ((mergeSimilarityScores [Scored.mk "A" (5/10)] [Scored.mk "B" (9/10)]).get
        ⟨0, by decide⟩).score = (5/10 : ℚ) * SEMANTIC_WEIGHT + 0 * TFIDF_WEIGHT := by
  have h := mergeSimilarityScores_shape [Scored.mk "A" (5/10)] [Scored.mk "B" (9/10)]
  have h3 := h.2.2 0 (by decide) (by decide) (by decide)
  refine ⟨by simpa using h.1, ?_⟩
  rw [h3.2]
  norm_num [SEMANTIC_THRESHOLD]

theorem filter_dedup_length_eq_distinctOverlap (xs ys : List String) :
    ((xs.dedup.filter (fun l => ys.contains l)).length : ℕ) = distinctOverlap xs ys := by
  have nd : (xs.dedup.filter (fun l => ys.contains l)).Nodup := xs.nodup_dedup.filter _
  rw [distinctOverlap, ← List.toFinset_card_of_nodup nd]
  congr 1
  ext a
  simp [List.mem_filter, List.mem_dedup, List.mem_toFinset, Finset.mem_inter]

/-- Claim C3: for every scored entry, the boost added equals
`min(accumulated, MAX_BOOST)` where the accumulation adds
`BOOST_ISSUETYPE_MATCH` when the issue type ids are equal,
`BOOST_LABELS_OVERLAP` once per distinct label present in both label sets,
and `BOOST_COMPONENTS_OVERLAP` once per distinct overlapping component
name; when the candidate's metadata entry is missing, the entry is
returned unchanged (boost 0) and no error is raised. -/
theorem applyBoostingLogic_boost (cm : CurrentMetadata) (oms : List IssueMetadata)
    (base : List Scored) (j : ℕ) (h : j < base.length)
    (h2 : j < (applyBoostingLogic cm oms base).length) :
    (∀ m, oms.find? (fun i => i.key == (base.get ⟨j, h⟩).key) = some m →
      (applyBoostingLogic cm oms base).get ⟨j, h2⟩
        = { key := (base.get ⟨j, h⟩).key,
            score := (base.get ⟨j, h⟩).score + min (accumulatedBoost cm m) MAX_BOOST })
    ∧ (oms.find? (fun i => i.key == (base.get ⟨j, h⟩).key) = none →
      (applyBoostingLogic cm oms base).get ⟨j, h2⟩ = base.get ⟨j, h⟩) := by
  simp only [List.get_eq_getElem]
  constructor
  · intro m hm
    have hl := filter_dedup_length_eq_distinctOverlap cm.labels m.labels
    have hc := filter_dedup_length_eq_distinctOverlap
      (cm.components.map Component.name) (m.components.map Component.name)
    simp only [applyBoostingLogic, List.getElem_map, hm]
    rw [accumulatedBoost, ← hl, ← hc]
  · intro hm
    simp only [applyBoostingLogic, List.getElem_map, hm]

/-- Witness for C3 at concrete inputs: all three heuristics fire
(issue types equal, two distinct overlapping labels — the duplicate
label `"a"` counted once — one overlapping component), the accumulated
boost `0.05 + 2·0.02 + 1·0.02 = 0.11` is capped at `MAX_BOOST = 0.1`;
and a candidate with no metadata entry keeps its score. -/
theorem applyBoostingLogic_boost_witness :
    ((applyBoostingLogic witnessCurrentMeta [witnessIssueMeta]
        [Scored.mk "K" (1/2)]).get ⟨0, by decide⟩
      = { key := "K",
          score := 1/2 + min (accumulatedBoost witnessCurrentMeta witnessIssueMeta) MAX_BOOST })
    ∧ min (accumulatedBoost witnessCurrentMeta witnessIssueMeta) MAX_BOOST = MAX_BOOST
    ∧ ((applyBoostingLogic witnessCurrentMeta [] [Scored.mk "K" (1/2)]).get
        ⟨0, by decide⟩ = Scored.mk "K" (1/2)) := by
  refine ⟨?_, ?_, ?_⟩
  · exact (applyBoostingLogic_boost witnessCurrentMeta [witnessIssueMeta]
      [Scored.mk "K" (1/2)] 0 (by decide) (by decide)).1 witnessIssueMeta (by rfl)
  · have h2 : distinctOverlap witnessCurrentMeta.labels witnessIssueMeta.labels = 2 := by decide
    have h1 : distinctOverlap (witnessCurrentMeta.components.map Component.name)
        (witnessIssueMeta.components.map Component.name) = 1 := by decide
    rw [accumulatedBoost, h2, h1]
    norm_num [witnessCurrentMeta, witnessIssueMeta, BOOST_ISSUETYPE_MATCH,
      BOOST_LABELS_OVERLAP, BOOST_COMPONENTS_OVERLAP, MAX_BOOST]
  · exact (applyBoostingLogic_boost witnessCurrentMeta []
      [Scored.mk "K" (1/2)] 0 (by decide) (by decide)).2 (by rfl)

/-- Claim C9: a semantic-provider failure (non-success response or
exception) yields an empty mapping from the adapter; the per-candidate
aggregation reads each field score with a 0 default, so a candidate id
missing from a field's mapping contributes 0 for that field; and on
failure of both calls every candidate still gets a (zero) score — the
failure never propagates to the scoring pipeline's caller. -/
theorem semantic_failure_degrades_to_zero :
    (fetchSemanticSimilarity .errorResponse = [] ∧ fetchSemanticSimilarity .exception = [])
    ∧ (∀ (m : List Scored) (k : String), (∀ e ∈ m, e.key ≠ k) → findScore m k = 0)
    ∧ (∀ so deo (others : List Issue) (j : ℕ) (h : j < others.length)
        (h2 : j < (calculateSemanticSimilarity so deo others).length),
        (calculateSemanticSimilarity so deo others).get ⟨j, h2⟩
          = { key := (others.get ⟨j, h⟩).key,
              score := findScore (fetchSemanticSimilarity so) (others.get ⟨j, h⟩).key
                    * SUMMARY_WEIGHT
                  + findScore (fetchSemanticSimilarity deo) (others.get ⟨j, h⟩).key
                    * DESCRIPTION_WEIGHT })
    ∧ (∀ (others : List Issue),
        (calculateSemanticSimilarity .errorResponse .exception others).length = others.length
        ∧ ∀ e ∈ calculateSemanticSimilarity .errorResponse .exception others, e.score = 0) := by
  refine ⟨⟨rfl, rfl⟩, ?_, ?_, ?_⟩
  · intro m k hm
    have hfind : m.find? (fun e => e.key == k) = none :=
      List.find?_eq_none.mpr (fun e he => by simpa using hm e he)
    simp [findScore, hfind]
  · intro so deo others j h h2
    simp [calculateSemanticSimilarity]
  · intro others
    refine ⟨by simp [calculateSemanticSimilarity], ?_⟩
    intro e he
    simp only [calculateSemanticSimilarity, List.mem_map] at he
    obtain ⟨i, hi, rfl⟩ := he
    simp [fetchSemanticSimilarity, findScore]

/-- Witness for C9 at concrete inputs: a mapping holding only key `"A"`
gives score 0 for key `"B"`, and with a failed summary call and a failed
description call the single candidate `"K"` is aggregated from two empty
mappings. -/
theorem semantic_failure_degrades_to_zero_witness :
    findScore [Scored.mk "A" 1] "B" = 0
    ∧ (calculateSemanticSimilarity .errorResponse .exception
        [Issue.mk "K" "s" "d"]).get ⟨0, by decide⟩
      = { key := "K",
          score := findScore [] "K" * SUMMARY_WEIGHT + findScore [] "K" * DESCRIPTION_WEIGHT } := by
  constructor
  · exact semantic_failure_degrades_to_zero.2.1 [Scored.mk "A" 1] "B"
      (by intro e he; simp only [List.mem_singleton] at he; subst he; decide)
  · exact semantic_failure_degrades_to_zero.2.2.1 .errorResponse .exception
      [Issue.mk "K" "s" "d"] 0 (by decide) (by decide)

theorem findScore_nonneg_le_one (m : List Scored)
    (hm : ∀ e ∈ m, 0 ≤ e.score ∧ e.score ≤ 1) (k : String) :
    0 ≤ findScore m k ∧ findScore m k ≤ 1 := by
  unfold findScore
  cases hfind : m.find? (fun e => e.key == k) with
  | none => norm_num
  | some e => exact hm e (List.mem_of_find?_eq_some hfind)

theorem findScore_nonneg (m : List Scored)
    (hm : ∀ e ∈ m, 0 ≤ e.score) (k : String) : 0 ≤ findScore m k := by
  unfold findScore
  cases hfind : m.find? (fun e => e.key == k) with
  | none => norm_num
  | some e => exact hm e (List.mem_of_find?_eq_some hfind)

theorem calculateSemanticSimilarity_bounds (so deo : ProviderOutcome) (others : List Issue)
    (h1 : ∀ e ∈ fetchSemanticSimilarity so, 0 ≤ e.score ∧ e.score ≤ 1)
    (h2 : ∀ e ∈ fetchSemanticSimilarity deo, 0 ≤ e.score ∧ e.score ≤ 1) :
    ∀ e ∈ calculateSemanticSimilarity so deo others, 0 ≤ e.score ∧ e.score ≤ 1 := by
  intro e he
  simp only [calculateSemanticSimilarity, List.mem_map] at he
  obtain ⟨i, hi, rfl⟩ := he
  obtain ⟨hs0, hs1⟩ := findScore_nonneg_le_one _ h1 i.key
  obtain ⟨hd0, hd1⟩ := findScore_nonneg_le_one _ h2 i.key
  unfold SUMMARY_WEIGHT DESCRIPTION_WEIGHT
  constructor <;> nlinarith

theorem mergeSimilarityScores_nonneg (sem t : List Scored)
    (hs : ∀ e ∈ sem, 0 ≤ e.score ∧ e.score ≤ 1)
    (ht : ∀ e ∈ t, 0 ≤ e.score) :
    ∀ e ∈ mergeSimilarityScores sem t, 0 ≤ e.score := by
  intro e he
  simp only [mergeSimilarityScores, List.mem_map] at he
  obtain ⟨a, ha, rfl⟩ := he
  dsimp only
  obtain ⟨h0, h1⟩ := hs a ha
  have htf : 0 ≤ findScore t a.key := findScore_nonneg t ht a.key
  split
  · exact h0
  · exact add_nonneg (mul_nonneg h0 (by norm_num [SEMANTIC_WEIGHT]))
      (mul_nonneg htf (by norm_num [TFIDF_WEIGHT]))

theorem applyBoostingLogic_nonneg (cm : CurrentMetadata) (oms : List IssueMetadata)
    (base : List Scored) (hb : ∀ e ∈ base, 0 ≤ e.score) :
    ∀ e ∈ applyBoostingLogic cm oms base, 0 ≤ e.score := by
  intro e he
  simp only [applyBoostingLogic, List.mem_map] at he
  obtain ⟨a, ha, rfl⟩ := he
  cases hfind : oms.find? (fun i => i.key == a.key) with
  | none => simpa [hfind] using hb a ha
  | some m =>
    simp only [hfind]
    have hA : (0:ℚ) ≤ if m.issuetypeId = cm.issuetypeId then BOOST_ISSUETYPE_MATCH else 0 := by
      split <;> norm_num [BOOST_ISSUETYPE_MATCH]
    have hB : (0:ℚ) ≤ ((cm.labels.dedup.filter
        (fun l => m.labels.contains l)).length : ℚ) * BOOST_LABELS_OVERLAP :=
      mul_nonneg (Nat.cast_nonneg _) (by norm_num [BOOST_LABELS_OVERLAP])
    have hC : (0:ℚ) ≤ (((cm.components.map Component.name).dedup.filter
        (fun c => (m.components.map Component.name).contains c)).length : ℚ)
        * BOOST_COMPONENTS_OVERLAP :=
      mul_nonneg (Nat.cast_nonneg _) (by norm_num [BOOST_COMPONENTS_OVERLAP])
    have hboost : (0:ℚ) ≤ min ((if m.issuetypeId = cm.issuetypeId
          then BOOST_ISSUETYPE_MATCH else 0)
        + ((cm.labels.dedup.filter (fun l => m.labels.contains l)).length : ℚ)
          * BOOST_LABELS_OVERLAP
        + (((cm.components.map Component.name).dedup.filter
            (fun c => (m.components.map Component.name).contains c)).length : ℚ)
          * BOOST_COMPONENTS_OVERLAP) MAX_BOOST :=
      le_min (by linarith) (by norm_num [MAX_BOOST])
    exact add_nonneg (hb a ha) hboost

theorem round2_nonneg (q : ℚ) (hq : 0 ≤ q) : 0 ≤ round2 q := by
  unfold round2
  apply div_nonneg _ (by norm_num)
  have h : (0:ℚ) ≤ q * 100 + 1/2 := by linarith
  exact_mod_cast Int.floor_nonneg.mpr h

/-- Claim C2: assuming the semantic field scores returned by the provider
lie in `[0,1]` and the lexical scores fed to the merger are non-negative
(which `calculateTFIDFCosineSimilarity` guarantees, see
`calculateTFIDFCosineSimilarity_nonneg`), every score the resolver emits
equals `min(round2(mergedScore + boost), 1)` and lies in `[0,1]`; in
particular it is never negative even though no lower clamp is written. -/
theorem finalizeScores_capped (so deo : ProviderOutcome) (others : List Issue)
    (tfidfScored : List Scored) (cm : CurrentMetadata) (oms : List IssueMetadata)
    (h1 : ∀ e ∈ fetchSemanticSimilarity so, 0 ≤ e.score ∧ e.score ≤ 1)
    (h2 : ∀ e ∈ fetchSemanticSimilarity deo, 0 ≤ e.score ∧ e.score ≤ 1)
    (ht : ∀ e ∈ tfidfScored, 0 ≤ e.score) :
    (finalizeScores (applyBoostingLogic cm oms
        (mergeSimilarityScores (calculateSemanticSimilarity so deo others) tfidfScored))
      = (applyBoostingLogic cm oms
          (mergeSimilarityScores (calculateSemanticSimilarity so deo others) tfidfScored)).map
        (fun e => { key := e.key, score := min (round2 e.score) 1 }))
    ∧ ∀ e ∈ finalizeScores (applyBoostingLogic cm oms
        (mergeSimilarityScores (calculateSemanticSimilarity so deo others) tfidfScored)),
        0 ≤ e.score ∧ e.score ≤ 1 := by
  refine ⟨rfl, ?_⟩
  intro e he
  simp only [finalizeScores, List.mem_map] at he
  obtain ⟨a, ha, rfl⟩ := he
  have hmerge := mergeSimilarityScores_nonneg _ tfidfScored
    (calculateSemanticSimilarity_bounds so deo others h1 h2) ht
  have hboost := applyBoostingLogic_nonneg cm oms _ hmerge
  have h0 := round2_nonneg a.score (hboost a ha)
  dsimp only
  exact ⟨le_min h0 zero_le_one, min_le_right _ _⟩

/-- Witness for C2 at concrete inputs: one candidate `"K"` with summary
semantic score `0.7`, a failed description call, an empty lexical list and
no metadata; the emitted score lies in `[0,1]`. -/
theorem finalizeScores_capped_witness :
    0 ≤ ((finalizeScores (applyBoostingLogic witnessCurrentMeta []
        (mergeSimilarityScores
          (calculateSemanticSimilarity (.success [Scored.mk "K" (7/10)]) .errorResponse
            [Issue.mk "K" "s" ""]) []))).get
      ⟨0, by simp [finalizeScores, applyBoostingLogic, mergeSimilarityScores,
        calculateSemanticSimilarity]⟩).score
    ∧ ((finalizeScores (applyBoostingLogic witnessCurrentMeta []
        (mergeSimilarityScores
          (calculateSemanticSimilarity (.success [Scored.mk "K" (7/10)]) .errorResponse
            [Issue.mk "K" "s" ""]) []))).get
      ⟨0, by simp [finalizeScores, applyBoostingLogic, mergeSimilarityScores,
        calculateSemanticSimilarity]⟩).score ≤ 1 := by
  apply (finalizeScores_capped (.success [Scored.mk "K" (7/10)]) .errorResponse
    [Issue.mk "K" "s" ""] [] witnessCurrentMeta [] ?_ ?_ ?_).2 _ (List.get_mem _ _ _)
  · intro e he
    have he2 : e ∈ [Scored.mk "K" (7/10)] := he
    simp only [List.mem_singleton] at he2
    subst he2
    norm_num
  · intro e he
    simp only [fetchSemanticSimilarity] at he
    simp at he
  · intro e he
    simp at he

/-- Claim C5: the ranking sort is stable — whenever two candidates have
equal (rounded) final scores, the sorted output preserves their original
relative order; `rankTop10` is this sort followed by `slice(0, 10)`. -/
theorem rank_sort_stable (l : List Scored) (x y : Scored)
    (hsub : List.Sublist [x, y] l) (heq : x.score = y.score) :
    (List.Sublist [x, y] (l.mergeSort scoreDescLe))
    ∧ rankTop10 l = (l.mergeSort scoreDescLe).take 10 := by
  refine ⟨?_, rfl⟩
  apply List.pair_sublist_mergeSort
  · intro a b c hab hbc
    simp only [scoreDescLe, decide_eq_true_eq] at hab hbc ⊢
    exact le_trans hbc hab
  · intro a b
    simp only [scoreDescLe, Bool.or_eq_true, decide_eq_true_eq]
    exact le_total b.score a.score
  · simp only [scoreDescLe, decide_eq_true_eq, heq, le_refl]
  · exact hsub

/-- Witness for C5 at concrete inputs: candidates `"A"` and `"B"` tie at
score `0.75`; after sorting, `"A"` still precedes `"B"`. -/
theorem rank_sort_stable_witness :
    List.Sublist [Scored.mk "A" (3/4), Scored.mk "B" (3/4)]
      ([Scored.mk "A" (3/4), Scored.mk "B" (3/4)].mergeSort scoreDescLe) :=
  (rank_sort_stable [Scored.mk "A" (3/4), Scored.mk "B" (3/4)]
    (Scored.mk "A" (3/4)) (Scored.mk "B" (3/4)) (List.Sublist.refl _) rfl).1

/-- Claim C6: the ranked result list is truncated with `slice(0, 10)`, so
its length never exceeds 10 (the top-N bound, fixed at `N = 10` in the
code). -/
theorem rankTop10_length_le (l : List Scored) : (rankTop10 l).length ≤ 10 := by
  simp only [rankTop10, List.length_take]
  exact min_le_left _ _

theorem list_sum_nonneg_all_zero {l : List ℝ} (h : ∀ x ∈ l, 0 ≤ x) (h0 : l.sum = 0) :
    ∀ x ∈ l, x = 0 := by
  induction l with
  | nil => simp
  | cons a t ih =>
    simp only [List.sum_cons] at h0
    have ha : 0 ≤ a := h a (List.mem_cons_self a t)
    have ht : 0 ≤ t.sum := List.sum_nonneg (fun x hx => h x (List.mem_cons_of_mem a hx))
    intro x hx
    rcases List.mem_cons.mp hx with rfl | hx2
    · linarith
    · exact ih (fun y hy => h y (List.mem_cons_of_mem a hy)) (by linarith) x hx2

theorem magSqOver_nonneg (terms : List String) (v : List (String × ℝ)) :
    0 ≤ magSqOver terms v := by
  apply List.sum_nonneg
  intro x hx
  simp only [List.mem_map] at hx
  obtain ⟨t, _, rfl⟩ := hx
  exact mul_self_nonneg _

theorem vecLookup_all_zero_of_magSq_zero (terms : List String) (v : List (String × ℝ))
    (h : magSqOver terms v = 0) : ∀ t ∈ terms, vecLookup v t = 0 := by
  intro t ht
  have hz := list_sum_nonneg_all_zero (l := terms.map (fun t => vecLookup v t * vecLookup v t))
    (by intro x hx
        simp only [List.mem_map] at hx
        obtain ⟨s, _, rfl⟩ := hx
        exact mul_self_nonneg _) h
  have := hz (vecLookup v t * vecLookup v t) (List.mem_map_of_mem _ ht)
  exact mul_self_eq_zero.mp this

/-- Claim C4: `cosineSimilarity` returns `dot / (‖a‖·‖b‖)` when the
product of magnitudes is nonzero, and exactly 0 when that product is 0
(then one vector vanishes on the shared term set, so the dot product is 0
and the JS `|| 1` guard divides it by 1).  The divisor is thus never 0 —
the ℝ-model counterpart of "never `NaN`/`Infinity`". -/
theorem cosineSimilarity_guarded (tf1 tf2 : List (String × ℝ)) :
    (Real.sqrt (magSqOver (termsUnion tf1 tf2) tf1)
        * Real.sqrt (magSqOver (termsUnion tf1 tf2) tf2) ≠ 0 →
      cosineSimilarity tf1 tf2
        = dotProduct tf1 tf2
          / (Real.sqrt (magSqOver (termsUnion tf1 tf2) tf1)
            * Real.sqrt (magSqOver (termsUnion tf1 tf2) tf2)))
    ∧ (Real.sqrt (magSqOver (termsUnion tf1 tf2) tf1)
        * Real.sqrt (magSqOver (termsUnion tf1 tf2) tf2) = 0 →
      cosineSimilarity tf1 tf2 = 0) := by
  constructor
  · intro h
    simp only [cosineSimilarity, if_neg h]
  · intro h
    have hdot : dotProduct tf1 tf2 = 0 := by
      apply List.sum_eq_zero
      intro x hx
      simp only [List.mem_map] at hx
      obtain ⟨t, htm, rfl⟩ := hx
      rcases mul_eq_zero.mp h with hs | hs
      · have hm : magSqOver (termsUnion tf1 tf2) tf1 = 0 :=
          (Real.sqrt_eq_zero (magSqOver_nonneg _ _)).mp hs
        rw [vecLookup_all_zero_of_magSq_zero _ _ hm t htm, zero_mul]
      · have hm : magSqOver (termsUnion tf1 tf2) tf2 = 0 :=
          (Real.sqrt_eq_zero (magSqOver_nonneg _ _)).mp hs
        rw [vecLookup_all_zero_of_magSq_zero _ _ hm t htm, mul_zero]
    simp only [cosineSimilarity, if_pos h, hdot, zero_div]

/-- Witness for C4 at concrete inputs: against the empty vector the
magnitude product is 0 and the cosine is 0; on the nonzero branch,
`cosine(v, v) = 1` for the one-coordinate vector `v = [("a", 1)]`. -/
theorem cosineSimilarity_guarded_witness :
    (Real.sqrt (magSqOver (termsUnion [("a", (1:ℝ))] []) [("a", (1:ℝ))])
        * Real.sqrt (magSqOver (termsUnion [("a", (1:ℝ))] []) []) = 0)
    ∧ cosineSimilarity [("a", (1:ℝ))] [] = 0
    ∧ cosineSimilarity [("a", (1:ℝ))] [("a", (1:ℝ))] = 1 := by
  have hterms : termsUnion [("a", (1:ℝ))] [] = ["a"] := by
    simp [termsUnion]
  have hterms2 : termsUnion [("a", (1:ℝ))] [("a", (1:ℝ))] = ["a"] := by
    simp [termsUnion]
  have hv : vecLookup [("a", (1:ℝ))] "a" = 1 := by
    simp [vecLookup]
  have hm0 : magSqOver (termsUnion [("a", (1:ℝ))] []) [] = 0 := by
    rw [hterms]
    simp [magSqOver, vecLookup]
  have hm1 : magSqOver (termsUnion [("a", (1:ℝ))] []) [("a", (1:ℝ))] = 1 := by
    rw [hterms]
    simp [magSqOver, hv]
  have hm1b : magSqOver (termsUnion [("a", (1:ℝ))] [("a", (1:ℝ))]) [("a", (1:ℝ))] = 1 := by
    rw [hterms2]
    simp [magSqOver, hv]
  have hd0 : Real.sqrt (magSqOver (termsUnion [("a", (1:ℝ))] []) [("a", (1:ℝ))])
      * Real.sqrt (magSqOver (termsUnion [("a", (1:ℝ))] []) []) = 0 := by
    rw [hm0, Real.sqrt_zero, mul_zero]
  refine ⟨hd0, (cosineSimilarity_guarded _ _).2 hd0, ?_⟩
  have hd1 : Real.sqrt (magSqOver (termsUnion [("a", (1:ℝ))] [("a", (1:ℝ))]) [("a", (1:ℝ))])
      * Real.sqrt (magSqOver (termsUnion [("a", (1:ℝ))] [("a", (1:ℝ))]) [("a", (1:ℝ))]) = 1 := by
    rw [hm1b, Real.sqrt_one, mul_one]
  have h1 := (cosineSimilarity_guarded [("a", (1:ℝ))] [("a", (1:ℝ))]).1 (by rw [hd1]; norm_num)
  rw [h1, hd1]
  have hdot : dotProduct [("a", (1:ℝ))] [("a", (1:ℝ))] = 1 := by
    simp [dotProduct, hterms2, hv]
  rw [hdot, div_one]

theorem vecLookup_keyMap (keys : List String) (f : String → ℝ) (t : String) (ht : t ∈ keys) :
    vecLookup (keys.map (fun k => (k, f k))) t = f t := by
  induction keys with
  | nil => cases ht
  | cons k ks ih =>
    unfold vecLookup
    cases hbeq : (k == t) with
    | true =>
      have hk : k = t := eq_of_beq hbeq
      subst hk
      simp [List.find?]
    | false =>
      have hk : k ≠ t := ne_of_beq_false hbeq
      have ht2 : t ∈ ks := by
        rcases List.mem_cons.mp ht with rfl | h2
        · exact absurd rfl hk
        · exact h2
      have := ih ht2
      unfold vecLookup at this
      simpa [List.find?, hbeq] using this

/-- Claim C8: for every non-empty token list, `computeTfIdf` assigns each
token of the list the weight
`(occurrences(token)/len(tokens)) * ln(totalDocs / max(df[token], 1))`;
a token absent from the document-frequency index has `df[token] = 0` and
is treated as `df = 1`, so the divisor `max(df[token], 1)` is never 0. -/
theorem computeTfIdf_weight (tokens : List String) (df : String → ℕ) (totalDocs : ℕ)
    (t : String) (_hne : tokens ≠ []) (ht : t ∈ tokens) :
    vecLookup (computeTfIdf tokens df totalDocs) t
      = ((tokens.count t : ℝ) / (tokens.length : ℝ))
        * Real.log ((totalDocs : ℝ) / ((max (df t) 1 : ℕ) : ℝ))
    ∧ ((max (df t) 1 : ℕ) : ℝ) ≠ 0 := by
  constructor
  · have h1 : t ∈ tokens.dedup := List.mem_dedup.mpr ht
    have hmax : (if df t = 0 then 1 else df t) = max (df t) 1 := by
      rcases Nat.eq_zero_or_pos (df t) with h | h
      · simp [h]
      · rw [if_neg (Nat.pos_iff_ne_zero.mp h)]
        exact (Nat.max_eq_left h).symm
    unfold computeTfIdf
    rw [vecLookup_keyMap tokens.dedup _ t h1, hmax]
  · have : 1 ≤ max (df t) 1 := le_max_right _ _
    exact Nat.cast_ne_zero.mpr (by omega)

/-- Witness for C8 at concrete inputs: tokens `["x", "x", "y"]`, an empty
document-frequency index (`df = 0` everywhere) and `totalDocs = 2`; token
`"x"` gets weight `(2/3) * ln(2 / max(0, 1))` and the divisor is nonzero. -/
theorem computeTfIdf_weight_witness :
    (["x", "x", "y"] ≠ ([] : List String))
    ∧ (vecLookup (computeTfIdf ["x", "x", "y"] (fun _ => 0) 2) "x"
        = (((["x", "x", "y"] : List String).count "x" : ℝ)
            / ((["x", "x", "y"] : List String).length : ℝ))
          * Real.log ((2 : ℝ) / ((max 0 1 : ℕ) : ℝ))
      ∧ ((max (0 : ℕ) 1 : ℕ) : ℝ) ≠ 0) :=
  ⟨by decide, computeTfIdf_weight ["x", "x", "y"] (fun _ => 0) 2 "x" (by decide) (by decide)⟩

theorem tokenize_empty (pm : String → String) (nd : String → Option String)
    (hpm : pm "" = "") (hnd : nd "" = none) : tokenize pm nd "" = [] := by
  unfold tokenize
  rw [hpm]
  simp [toLowerString, splitW, normalizeToken, hnd]

theorem cosineSimilarity_nil_right (v : List (String × ℝ)) : cosineSimilarity v [] = 0 := by
  have hdot : dotProduct v [] = 0 := by
    apply List.sum_eq_zero
    intro x hx
    simp only [List.mem_map] at hx
    obtain ⟨t, _, rfl⟩ := hx
    simp [vecLookup]
  simp [cosineSimilarity, hdot]

/-- Claim C7: when a candidate's description is empty (and the query's
description may be anything), the description cosine contributes 0 and the
candidate's lexical score equals exactly `summaryCosine * SUMMARY_WEIGHT`,
with no renormalization of the field weights.  The phrase map fixes `""`
and the synonym dictionary has no entry for `""` (both true of any
sensible dictionaries, and of the JS regex replacement, which cannot match
inside the empty string). -/
theorem empty_description_summary_only (pm : String → String) (nd : String → Option String)
    (current : Issue) (others : List Issue)
    (hpm : pm "" = "") (hnd : nd "" = none)
    (j : ℕ) (h : j < others.length)
    (hdesc : (others.get ⟨j, h⟩).description = "")
    (h2 : j < (calculateTFIDFCosineSimilarity pm nd current others).length) :
    cosineSimilarity (descVec pm nd current others current)
        (descVec pm nd current others (others.get ⟨j, h⟩)) = 0
    ∧ ((calculateTFIDFCosineSimilarity pm nd current others).get ⟨j, h2⟩).score
      = cosineSimilarity (summaryVec pm nd current others current)
          (summaryVec pm nd current others (others.get ⟨j, h⟩)) * (SUMMARY_WEIGHT : ℝ) := by
  have hvec : descVec pm nd current others (others.get ⟨j, h⟩) = [] := by
    unfold descVec
    rw [hdesc, tokenize_empty pm nd hpm hnd]
    rfl
  have hcos : cosineSimilarity (descVec pm nd current others current)
      (descVec pm nd current others (others.get ⟨j, h⟩)) = 0 := by
    rw [hvec]
    exact cosineSimilarity_nil_right _
  refine ⟨hcos, ?_⟩
  simp only [List.get_eq_getElem] at hcos ⊢
  simp only [calculateTFIDFCosineSimilarity, List.getElem_map]
  rw [hcos, zero_mul, add_zero]

/-- Witness for C7 at concrete inputs: identity phrase map, empty synonym
dictionary, query `{summary "s", description "d"}` and one candidate
`{summary "t", description ""}`. -/
theorem empty_description_summary_only_witness :
    ((calculateTFIDFCosineSimilarity id (fun _ => none) (Issue.mk "C" "s" "d")
        [Issue.mk "K" "t" ""]).get
          ⟨0, by simp [calculateTFIDFCosineSimilarity]⟩).score
      = cosineSimilarity
          (summaryVec id (fun _ => none) (Issue.mk "C" "s" "d") [Issue.mk "K" "t" ""]
            (Issue.mk "C" "s" "d"))
          (summaryVec id (fun _ => none) (Issue.mk "C" "s" "d") [Issue.mk "K" "t" ""]
            (Issue.mk "K" "t" ""))
        * (SUMMARY_WEIGHT : ℝ) :=
  (empty_description_summary_only id (fun _ => none) (Issue.mk "C" "s" "d")
    [Issue.mk "K" "t" ""] rfl rfl 0 (by decide) rfl
    (by simp [calculateTFIDFCosineSimilarity])).2

theorem computeDocumentFrequencies_bounds (documents : List (List String))
    (d : List String) (hd : d ∈ documents) (t : String) (ht : t ∈ d) :
    0 < computeDocumentFrequencies documents t
    ∧ computeDocumentFrequencies documents t ≤ documents.length := by
  constructor
  · unfold computeDocumentFrequencies
    have hmem : d ∈ documents.filter (fun tokens => tokens.contains t) := by
      rw [List.mem_filter]
      exact ⟨hd, by simpa using ht⟩
    exact List.length_pos.mpr (List.ne_nil_of_mem hmem)
  · exact List.length_filter_le _ _

theorem computeTfIdf_lookup_nonneg (tokens : List String) (df : String → ℕ) (n : ℕ)
    (hdf : ∀ t ∈ tokens, 0 < df t ∧ df t ≤ n) (s : String) :
    0 ≤ vecLookup (computeTfIdf tokens df n) s := by
  unfold vecLookup
  cases hfind : (computeTfIdf tokens df n).find? (fun p => p.1 == s) with
  | none => norm_num
  | some p =>
    have hp := List.mem_of_find?_eq_some hfind
    simp only [computeTfIdf, List.mem_map] at hp
    obtain ⟨t, htd, rfl⟩ := hp
    have htok : t ∈ tokens := List.mem_dedup.mp htd
    obtain ⟨h1, h2⟩ := hdf t htok
    dsimp only
    apply mul_nonneg
    · apply div_nonneg (Nat.cast_nonneg _) (Nat.cast_nonneg _)
    · apply Real.log_nonneg
      rw [if_neg (Nat.pos_iff_ne_zero.mp h1)]
      rw [le_div_iff₀ (by exact_mod_cast h1)]
      rw [one_mul]
      exact_mod_cast h2

theorem cosineSimilarity_nonneg (v w : List (String × ℝ))
    (hv : ∀ t, 0 ≤ vecLookup v t) (hw : ∀ t, 0 ≤ vecLookup w t) :
    0 ≤ cosineSimilarity v w := by
  have hdot : 0 ≤ dotProduct v w := by
    apply List.sum_nonneg
    intro x hx
    simp only [List.mem_map] at hx
    obtain ⟨t, _, rfl⟩ := hx
    exact mul_nonneg (hv t) (hw t)
  simp only [cosineSimilarity]
  apply div_nonneg hdot
  split
  · norm_num
  · positivity

/-- The TF-IDF engine only emits non-negative lexical scores: inside the
corpus every token's document frequency is between 1 and `totalDocs`, so
all TF-IDF weights are non-negative, hence both cosines and their weighted
sum are non-negative.  (This discharges, for the source TF-IDF engine, the
non-negative-lexical-score hypothesis of `finalizeScores_capped`.) -/
theorem calculateTFIDFCosineSimilarity_nonneg (pm : String → String)
    (nd : String → Option String) (current : Issue) (others : List Issue) :
    ∀ e ∈ calculateTFIDFCosineSimilarity pm nd current others, 0 ≤ e.score := by
  have hsvec : ∀ d ∈ current :: others, ∀ s,
      0 ≤ vecLookup (summaryVec pm nd current others d) s := by
    intro d hd s
    apply computeTfIdf_lookup_nonneg
    intro t htok
    have hb := computeDocumentFrequencies_bounds
      ((current :: others).map (fun doc => tokenize pm nd doc.summary))
      (tokenize pm nd d.summary) (List.mem_map_of_mem _ hd) t htok
    refine ⟨hb.1, ?_⟩
    have := hb.2
    rwa [List.length_map] at this
  have hdvec : ∀ d ∈ current :: others, ∀ s,
      0 ≤ vecLookup (descVec pm nd current others d) s := by
    intro d hd s
    apply computeTfIdf_lookup_nonneg
    intro t htok
    have hb := computeDocumentFrequencies_bounds
      ((current :: others).map (fun doc => tokenize pm nd doc.description))
      (tokenize pm nd d.description) (List.mem_map_of_mem _ hd) t htok
    refine ⟨hb.1, ?_⟩
    have := hb.2
    rwa [List.length_map] at this
  intro e he
  simp only [calculateTFIDFCosineSimilarity, List.mem_map] at he
  obtain ⟨doc, hdoc, rfl⟩ := he
  dsimp only
  have hcur : current ∈ current :: others := List.mem_cons_self _ _
  have hdocm : doc ∈ current :: others := List.mem_cons_of_mem _ hdoc
  have hs := cosineSimilarity_nonneg _ _ (hsvec current hcur) (hsvec doc hdocm)
  have hd := cosineSimilarity_nonneg _ _ (hdvec current hcur) (hdvec doc hdocm)
  have hsw : (0:ℝ) ≤ (SUMMARY_WEIGHT : ℝ) := by
    rw [show (SUMMARY_WEIGHT : ℚ) = 8/10 from rfl]
    norm_num
  have hdw : (0:ℝ) ≤ (DESCRIPTION_WEIGHT : ℝ) := by
    rw [show (DESCRIPTION_WEIGHT : ℚ) = 2/10 from rfl]
    norm_num
  exact add_nonneg (mul_nonneg hs hsw) (mul_nonneg hd hdw)

end SimilarTickets
